import Mathlib

/-!
Verification development for the can_testbench repository.

The Python source (src/can_testbench.py) is shallowly embedded below:
pure fragments become Lean functions, the stateful scheduler and table
models become explicit state-passing functions, Python floats are
modelled as exact rationals, and Python `round` is modelled as
round-half-to-even (the semantics of the builtin `round`).
The DBC codec used by the application lives in the external cantools
library, not in this repository; those functions are modelled from the
specification text and are marked as such in their doc comments.
-/

namespace CanTestbench

-- The Batteries library marks the arithmetic of `Rat` irreducible, which
-- blocks `decide` on concrete rational computations; restore reducibility
-- so that witnesses evaluate.
unseal Rat.mul Rat.inv Rat.add Rat.sub Rat.ofScientific

/-- Python builtin `round` on a real value: round half to even
(bankers rounding).  `round(2.5) = 2`, `round(3.5) = 4`, `round(-0.5) = 0`. -/
def bankersRound (q : ℚ) : ℤ :=
  let f : ℤ := ⌊q⌋
  let r : ℚ := q - f
  if r < 1/2 then f
  else if 1/2 < r then f + 1
  else if Even f then f else f + 1

/-! ## Periodic transmit scheduler: `CanBusHandler` (src/can_testbench.py 115-191)

The handler keeps `periodicMsgs`, a dictionary from arbitration id to a
record holding the payload, the period, and the python-can task object.
We model the task object by a numeric task identity drawn from a counter,
plus a running flag, and we record the externally visible operations
(one-shot bus sends, task creation, task stop/start) as an action list. -/

/-- Payload bytes of a CAN frame, modelled as the list of payload bits
(bit `p` is bit `p % 8` of byte `p / 8`). -/
abbrev Payload := List Bool

/-- One entry of `CanBusHandler.periodicMsgs`: the `sendDetails` dictionary
with keys `data`, `period` and `task`.  The python-can task object is
modelled by its identity `task` and a `running` flag. -/
structure SendDetails where
  data : Payload
  period : ℚ
  task : ℕ
  running : Bool
  deriving DecidableEq, Repr

/-- Externally visible effects of the bus handler. -/
inductive BusAction where
  /-- `self.bus.send(msg)`: a one-shot transmission. -/
  | busSend (id : ℕ) (data : Payload)
  /-- `sendDetails['task'].stop()` -/
  | taskStop (task : ℕ)
  /-- `sendDetails['task'].start()` -/
  | taskStart (task : ℕ)
  /-- `self.bus.send_periodic(msg, period, ...)`: a new ticking task. -/
  | sendPeriodic (task : ℕ) (id : ℕ) (data : Payload) (period : ℚ)
  deriving DecidableEq, Repr

/-- State of a `CanBusHandler`: the `periodicMsgs` dictionary (an
association list keyed by arbitration id) and the supply of task
identities for newly created python-can tasks. -/
structure BusState where
  periodicMsgs : List (ℕ × SendDetails)
  nextTask : ℕ
  deriving DecidableEq, Repr

namespace CanBusHandler

/-- Dictionary lookup on the underlying association list. -/
def lookupL (l : List (ℕ × SendDetails)) (id : ℕ) : Option SendDetails :=
  (l.find? (fun p => decide (p.1 = id))).map Prod.snd

/-- `self.periodicMsgs.get(msg.arbitration_id)` -/
def lookupMsg (st : BusState) (id : ℕ) : Option SendDetails :=
  lookupL st.periodicMsgs id

/-- Replace the entry for `id` (dictionary entries are mutated in place). -/
def setEntry (l : List (ℕ × SendDetails)) (id : ℕ) (e : SendDetails) :
    List (ℕ × SendDetails) :=
  l.map (fun p => if p.1 = id then (p.1, e) else p)

/-- Source line 171 compares `sendDetails['period'] != [period]`: a Python
float on the left and a one-element list on the right.  A float is never
equal to a list in Python, so this comparison is always true, whatever the
two periods are. -/
def periodNeSingletonList (_storedPeriod _newPeriod : ℚ) : Bool := true

/-- `CanBusHandler.sendCanMessage` (lines 145-178).  `frequency = 0` sends
the frame once on the bus; otherwise the periodic-task dictionary is
consulted and a task is created, restarted, or replaced. -/
def sendCanMessage (st : BusState) (id : ℕ) (data : Payload) (frequency : ℚ) :
    BusState × List BusAction :=
  if frequency = 0 then
    (st, [BusAction.busSend id data])
  else
    match lookupMsg st id with
    | none =>
        ({ periodicMsgs :=
             st.periodicMsgs ++ [(id, ⟨data, 1 / frequency, st.nextTask, true⟩)],
           nextTask := st.nextTask + 1 },
         [BusAction.sendPeriodic st.nextTask id data (1 / frequency)])
    | some e =>
        if e.period ≠ 1 / frequency ∨ e.data ≠ data then
          -- sendDetails['task'].stop(); sendDetails['data'] = msg.data
          if periodNeSingletonList e.period (1 / frequency) then
            -- always taken: a fresh periodic task replaces the old one
            ({ periodicMsgs := setEntry st.periodicMsgs id
                 ⟨data, 1 / frequency, st.nextTask, true⟩,
               nextTask := st.nextTask + 1 },
             [BusAction.taskStop e.task,
              BusAction.sendPeriodic st.nextTask id data (1 / frequency)])
          else
            -- dead in the source: float vs list comparison above
            ({ st with periodicMsgs :=
                 setEntry st.periodicMsgs id { e with data := data, running := true } },
             [BusAction.taskStop e.task, BusAction.taskStart e.task])
        else
          ({ st with periodicMsgs :=
               setEntry st.periodicMsgs id { e with running := true } },
           [BusAction.taskStart e.task])

/-- `CanBusHandler.stop` (lines 184-187): stop the periodic task for the
message, when one is registered. -/
def stop (st : BusState) (id : ℕ) : BusState × List BusAction :=
  match lookupMsg st id with
  | none => (st, [])
  | some e =>
      ({ st with
         periodicMsgs := setEntry st.periodicMsgs id { e with running := false } },
       [BusAction.taskStop e.task])

end CanBusHandler

/-! ## Signal and message layouts, and the codec

The application performs all payload packing through the external
cantools library (`msg.message.encode(...)` in `MsgModel.getMsgData`,
line 269, and `msg.message.decode(...)` in
`RxMsgModel.updateSignalValues`, line 362).  That library is not part of
this repository, so the codec below is modelled from the specification
(sections 3 and 4.1). -/

/-- A logical signal value: a number (integers and floats are both exact
rationals here) or a named enumeration choice. -/
inductive SigVal where
  | num (q : ℚ)
  | choice (name : String)
  deriving DecidableEq, Repr

/-- Modelled from the spec: SignalLayout (spec section 3) — bit position,
length, byte order, signedness, scale, offset, bounds and the optional
ordered raw-to-name enumeration table of one signal. -/
structure SigLayout where
  name : String
  start : ℕ
  length : ℕ
  /-- true = least-significant-byte-first (Intel), false = Motorola. -/
  byteOrderLE : Bool
  isSigned : Bool
  scale : ℚ
  offset : ℚ
  minimum : Option ℚ
  maximum : Option ℚ
  choices : List (ℤ × String)
  deriving DecidableEq, Repr

/-- Modelled from the spec: MessageLayout (spec section 3). -/
structure MsgLayout where
  frameId : ℕ
  isExtended : Bool
  byteLength : ℕ
  name : String
  signals : List SigLayout
  deriving DecidableEq, Repr

namespace Codec

/-- One step of the Motorola (big-endian) bit walk: from one bit position
to the next more significant payload position: down within a byte, and
from bit 0 of a byte to bit 7 of the following byte. -/
def beStep (p : ℕ) : ℕ := if p % 8 = 0 then p + 15 else p - 1

/-- `k` steps of the Motorola bit walk starting at `p`. -/
def beDesc (p : ℕ) : ℕ → ℕ
  | 0 => p
  | k + 1 => beStep (beDesc p k)

/-- Payload bit position holding bit `i` (weight `2 ^ i`) of the raw
integer of signal `s`.  For little-endian signals the walk ascends from
the start bit; for big-endian signals the start bit holds the most
significant raw bit and the walk descends. -/
def sigPos (s : SigLayout) (i : ℕ) : ℕ :=
  if s.byteOrderLE then s.start + i else beDesc s.start (s.length - 1 - i)

/-- Rank function that linearises the Motorola bit walk. -/
def beRank (p : ℕ) : ℕ := 8 * (p / 8) + (7 - p % 8)

/-- Modelled from the spec (section 4.1 encode): the raw integer for one
signal value: an enumeration choice looks up its raw integer in the
choices table, a number is scaled as `round((value - offset) / scale)`
with Python rounding. -/
def rawOfValue (s : SigLayout) (v : SigVal) : ℤ :=
  match v with
  | .num q => bankersRound ((q - s.offset) / s.scale)
  | .choice nm =>
      ((s.choices.find? (fun c => decide (c.2 = nm))).map Prod.fst).getD 0

/-- The raw integer reduced to its bit-field representation
(two-complement for negative values). -/
def rawNat (s : SigLayout) (v : SigVal) : ℕ :=
  ((rawOfValue s v) % (2 ^ s.length : ℤ)).toNat

/-- Bit `i` of the encoded raw integer of signal `s`. -/
def rawBit (s : SigLayout) (v : SigVal) (i : ℕ) : Bool :=
  (rawNat s v).testBit i

/-- Modelled from the spec (section 4.1 encode): pack every signal of the
layout into a payload; every bit not covered by any signal is zero. -/
def encode (L : MsgLayout) (values : String → SigVal) : Payload :=
  (List.range (8 * L.byteLength)).map (fun p =>
    L.signals.any (fun s =>
      (List.range s.length).any (fun i =>
        decide (sigPos s i = p) && rawBit s (values s.name) i)))

/-- Bit `p` of a payload (absent bits read as zero). -/
def payloadBit (d : Payload) (p : ℕ) : Bool := d.getD p false

/-- Unsigned raw integer read back from the bit range of signal `s`. -/
def decodeU (d : Payload) (s : SigLayout) : ℕ :=
  ∑ i ∈ Finset.range s.length, if payloadBit d (sigPos s i) then 2 ^ i else 0

/-- Modelled from the spec (section 4.1 decode): the extracted raw
integer, interpreted as two-complement when the signal is signed. -/
def decodeRaw (d : Payload) (s : SigLayout) : ℤ :=
  if s.isSigned && decide (2 ^ (s.length - 1) ≤ decodeU d s) then
    (decodeU d s : ℤ) - 2 ^ s.length
  else
    (decodeU d s : ℤ)

/-- Modelled from the spec (section 4.1 decode): one signal of a payload.
A raw integer matching an enumeration entry decodes to the named choice;
otherwise `raw * scale + offset` is produced. -/
def decodeSig (d : Payload) (s : SigLayout) : SigVal :=
  match s.choices.find? (fun c => decide (c.1 = decodeRaw d s)) with
  | some c => .choice c.2
  | none => .num (decodeRaw d s * s.scale + s.offset)

/-- Modelled from the spec (section 4.1 decode): one entry per signal of
the message. -/
def decode (L : MsgLayout) (d : Payload) : List (String × SigVal) :=
  L.signals.map (fun s => (s.name, decodeSig d s))

/-- Bit ranges of two signals do not meet. -/
def PosDisjoint (s1 s2 : SigLayout) : Prop :=
  ∀ i < s1.length, ∀ j < s2.length, sigPos s1 i ≠ sigPos s2 j

/-- Catalog sanity (spec section 3 invariants): every signal bit position
lies inside the message, and distinct signals occupy disjoint bit
ranges. -/
def LayoutSane (L : MsgLayout) : Prop :=
  (∀ s ∈ L.signals, ∀ i < s.length, sigPos s i < 8 * L.byteLength) ∧
  (∀ s1 ∈ L.signals, ∀ s2 ∈ L.signals, s1 ≠ s2 → PosDisjoint s1 s2)

/-- The raw integer fits the declared bit range. -/
def RawFits (s : SigLayout) (r : ℤ) : Prop :=
  if s.isSigned then -(2 ^ (s.length - 1)) ≤ r ∧ r < 2 ^ (s.length - 1)
  else 0 ≤ r ∧ r < 2 ^ s.length

end Codec

/-! ## Transmit message table: `TxMsgModel` (src/can_testbench.py 411-572) -/

/-- An operator edit of the Value column.  `TxMsgModel.setData` asserts
the edit arrives as a string and branches on whether the first two
characters are `0x` (lines 491-497): a hex string carrying the digits of
`n`, or a decimal literal with value `v`. -/
inductive TxInput where
  | hexStr (n : ℕ)
  | dec (v : ℚ)
  deriving DecidableEq, Repr

/-- State of one `TxMsgModel` together with the checkbox of its
`TxMessageLayout` that the model drives through the `setSend` signal. -/
structure TxModelState where
  layout : MsgLayout
  /-- `self.sigValues`: queued per-row values (the Value column). -/
  sigValues : List SigVal
  /-- `self.msg.signals[row].value` per row (the Sent column). -/
  msgValues : List SigVal
  isQueue : Bool
  isSend : Bool
  /-- State of the Send checkbox in the associated `TxMessageLayout`. -/
  sendChecked : Bool
  frequency : ℚ
  /-- `self.canBusMsg.data` -/
  canBusMsgData : Payload
  deriving DecidableEq, Repr

namespace TxMsgModel

/-- `MsgModel.getMsgData` (lines 258-270): build the name-to-value
dictionary from the message signals and encode it.  A later row with the
same name overwrites an earlier one, as dictionary assignment does. -/
def dictValues (L : MsgLayout) (vals : List SigVal) (nm : String) : SigVal :=
  match ((L.signals.map SigLayout.name).zip vals).reverse.find?
      (fun p => decide (p.1 = nm)) with
  | some p => p.2
  | none => SigVal.num 0

/-- `MsgModel.getMsgData` (lines 258-270). -/
def getMsgData (L : MsgLayout) (vals : List SigVal) : Payload :=
  Codec.encode L (dictValues L vals)

/-- `TxMsgModel.applyChange` (lines 517-525): commit the queued values,
re-encode the frame, and, when sending is on, hand it to the bus. -/
def applyChange (tx : TxModelState) (bus : BusState) :
    TxModelState × BusState × List BusAction :=
  if tx.isSend then
    let d := getMsgData tx.layout tx.sigValues
    let tx1 : TxModelState := { tx with msgValues := tx.sigValues, canBusMsgData := d }
    let r := CanBusHandler.sendCanMessage bus tx.layout.frameId d tx.frequency
    (tx1, r.1, r.2)
  else
    let d := getMsgData tx.layout tx.sigValues
    ({ tx with msgValues := tx.sigValues, canBusMsgData := d }, bus, [])

/-- The requested logical value of an edit (lines 493-497): hex input is
parsed with `int(value, 16)` and used directly; decimal input is rounded
to the nearest multiple of the signal scale with Python `round`. -/
def requestedValue (s : SigLayout) (input : TxInput) : ℚ :=
  match input with
  | .hexStr n => (n : ℚ)
  | .dec v => (bankersRound (v / s.scale) : ℚ) * s.scale

/-- Lower half of the range test (lines 499-506): a missing minimum is
replaced by negative infinity, so it never rejects. -/
def minOk (s : SigLayout) (r : ℚ) : Bool :=
  match s.minimum with
  | none => true
  | some m => decide (m ≤ r)

/-- Upper half of the range test (lines 499-507): a missing maximum is
replaced by positive infinity, so it never rejects. -/
def maxOk (s : SigLayout) (r : ℚ) : Bool :=
  match s.maximum with
  | none => true
  | some m => decide (r ≤ m)

/-- `TxMsgModel.setData` (lines 487-515), for an edit of the Value column
with the edit role (an invalid index is a no-op returning `false`).
Returns the new model state, the new bus state, the emitted bus actions,
and the Bool result of `setData`. -/
def setData (tx : TxModelState) (bus : BusState) (row : ℕ) (input : TxInput) :
    TxModelState × BusState × List BusAction × Bool :=
  match tx.layout.signals[row]? with
  | none => (tx, bus, [], false)
  | some s =>
      if minOk s (requestedValue s input) && maxOk s (requestedValue s input) then
        let tx1 : TxModelState :=
          { tx with sigValues := tx.sigValues.set row (SigVal.num (requestedValue s input)) }
        if tx1.isQueue then
          (tx1, bus, [], true)
        else
          let r := applyChange tx1 bus
          (r.1, r.2.1, r.2.2, true)
      else
        (tx, bus, [], false)

/-- `TxMsgModel.sendChanged(False)` (lines 540-543): note that sending is
off and stop the periodic task of this message. -/
def sendChangedFalse (tx : TxModelState) (bus : BusState) :
    TxModelState × BusState × List BusAction :=
  let r := CanBusHandler.stop bus tx.layout.frameId
  ({ tx with isSend := false }, r.1, r.2)

/-- `self.setSend.emit(False)` as delivered through the Qt connections:
`TxMessageLayout.setSend` (lines 765-769) unchecks the Send checkbox,
`stateChanged` fires only when the state really changes, and the chain
(lines 815-818 and 1413) ends in `TxMsgModel.sendChanged(False)`. -/
def emitSetSendFalse (tx : TxModelState) (bus : BusState) :
    TxModelState × BusState × List BusAction :=
  if tx.sendChecked then
    sendChangedFalse { tx with sendChecked := false } bus
  else
    (tx, bus, [])

/-- `TxMsgModel.frequencyChanged` (lines 550-556). -/
def frequencyChanged (tx : TxModelState) (bus : BusState) (frequency : ℚ) :
    TxModelState × BusState × List BusAction :=
  if tx.isSend then
    let tx1 : TxModelState := { tx with frequency := frequency }
    let r1 := CanBusHandler.sendCanMessage bus tx.layout.frameId
        tx.canBusMsgData frequency
    if frequency = 0 then
      let r2 := emitSetSendFalse tx1 r1.1
      (r2.1, r2.2.1, r1.2 ++ r2.2.2)
    else
      (tx1, r1.1, r1.2)
  else
    ({ tx with frequency := frequency }, bus, [])

/-- `TxMsgModel.sendChanged` (lines 533-543). -/
def sendChanged (tx : TxModelState) (bus : BusState) (isSend : Bool) :
    TxModelState × BusState × List BusAction :=
  if isSend then
    let tx1 : TxModelState := { tx with isSend := true }
    let r1 := CanBusHandler.sendCanMessage bus tx.layout.frameId
        tx.canBusMsgData tx.frequency
    if tx.frequency = 0 then
      let r2 := emitSetSendFalse tx1 r1.1
      (r2.1, r2.2.1, r1.2 ++ r2.2.2)
    else
      (tx1, r1.1, r1.2)
  else
    sendChangedFalse tx bus

end TxMsgModel

/-! ## Receive message table and tab: `RxMsgModel`, `RxTab`
(src/can_testbench.py 272-409 and 1421-1458) -/

/-- One row of a receive table: one `DbcSignal`. -/
structure RxSigRow where
  name : String
  value : SigVal
  graphValues : List ℚ
  graphed : Bool
  deriving DecidableEq, Repr

/-- State of one `RxMsgModel` with its `DbcMessage`. -/
structure RxModelState where
  layout : MsgLayout
  signals : List RxSigRow
  timestamps : List ℚ
  lastReceived : Option ℚ
  rxDelta : Option ℚ
  rowsUpdated : List ℕ
  deriving DecidableEq, Repr

namespace RxMsgModel

/-- The numeric value recorded for graphing (lines 338-345): a named
enumeration value contributes its raw integer, a number contributes
itself. -/
def graphValueOf (d : Payload) (s : SigLayout) : ℚ :=
  match Codec.decodeSig d s with
  | .num q => q
  | .choice _ => (Codec.decodeRaw d s : ℚ)

/-- `RxMsgModel.setData` for the edit role (lines 335-350): always append
the graph value; update the stored value and note the row only when the
value changed.  (An out-of-range row index is the invalid-index no-op.) -/
def setDataEdit (m : RxModelState) (row : ℕ) (v : SigVal) (graphVal : ℚ) :
    RxModelState :=
  match m.signals[row]? with
  | none => m
  | some sigRow =>
      let sigRow1 : RxSigRow :=
        { sigRow with graphValues := sigRow.graphValues ++ [graphVal] }
      if v = sigRow.value then
        { m with signals := m.signals.set row sigRow1 }
      else
        { m with signals := m.signals.set row { sigRow1 with value := v },
                 rowsUpdated := m.rowsUpdated ++ [row] }

/-- `RxMsgModel.updateSignalValues` (lines 361-376): decode the payload,
record the timestamp, push every decoded value into its row (rows are
found by signal name; the decoded names are exactly the layout names, so
the Python stale-row fallback for a missing name cannot trigger), and
update the receive timestamps. -/
def updateSignalValues (m : RxModelState) (data : Payload) (timestamp : ℚ) :
    RxModelState :=
  let m1 : RxModelState := { m with timestamps := m.timestamps ++ [timestamp] }
  let m2 := m.layout.signals.foldl (fun acc s =>
      match acc.signals.findIdx? (fun row => decide (row.name = s.name)) with
      | some row => setDataEdit acc row (Codec.decodeSig data s) (graphValueOf data s)
      | none => acc) m1
  { m2 with
    lastReceived := some timestamp,
    rxDelta := match m.lastReceived with
               | some p => some (timestamp - p)
               | none => m2.rxDelta }

end RxMsgModel

/-- State of an `RxTab`: its channel and the per-frame-id receive
tables. -/
structure RxTabState where
  channel : String
  msgTables : List (ℕ × RxModelState)
  deriving DecidableEq, Repr

namespace RxTab

/-- `RxTab.handleRxCanMsg` (lines 1452-1458): frames from another channel
are dropped; a frame whose arbitration id has no table is ignored;
otherwise the matching table is updated. -/
def handleRxCanMsg (tab : RxTabState) (id : ℕ) (data : Payload)
    (timestamp : ℚ) (channel : String) : RxTabState :=
  if tab.channel ≠ channel then tab
  else
    match tab.msgTables.find? (fun p => decide (p.1 = id)) with
    | none => tab
    | some _ =>
        { tab with msgTables := tab.msgTables.map (fun p =>
            if p.1 = id then
              (p.1, RxMsgModel.updateSignalValues p.2 data timestamp)
            else p) }

end RxTab

/-! ## Catalog loading: `TabManager.setupMessages`
(src/can_testbench.py 1543-1579) -/

/-- The `initial` attribute of a cantools signal: a named value, a
number, or absent. -/
inductive SigInitial where
  | named (nm : String)
  | numeric (q : ℚ)
  | absent
  deriving DecidableEq, Repr

/-- The slice of a cantools signal that `setupMessages` reads. -/
structure CatSignal where
  name : String
  scale : ℚ
  initial : SigInitial
  deriving DecidableEq, Repr

/-- The slice of a cantools message that `setupMessages` reads. -/
structure CatMsg where
  frameId : ℕ
  senders : Option (List String)
  signals : List CatSignal
  deriving DecidableEq, Repr

/-- The slice of a `CanConfig` option set that `setupMessages` reads:
`self.config.option()` with its `interface` and optional `listen_mode`
keys. -/
structure ConfigOption where
  interface : String
  listen_mode : Option String
  deriving DecidableEq, Repr

/-- A built `DbcMessage`: the catalog message plus the initial values of
its `DbcSignal` list. -/
structure DbcMessageM where
  cat : CatMsg
  values : List SigVal
  deriving DecidableEq, Repr

namespace TabManager

/-- Python `int()` on a number: truncation toward zero. -/
def pyInt (q : ℚ) : ℤ := if 0 ≤ q then ⌊q⌋ else -⌊-q⌋

/-- Initial `DbcSignal.value` (lines 1561-1566): a named initial keeps
its name; otherwise an integral scale yields `int(initial)` (0 when
absent) and a fractional scale yields `float(initial)` (0.0 when
absent). -/
def initialValue (s : CatSignal) : SigVal :=
  match s.initial with
  | .named nm => .choice nm
  | .numeric q =>
      if (pyInt s.scale : ℚ) = s.scale then .num ((pyInt q : ℤ) : ℚ) else .num q
  | .absent => .num 0

/-- Build the `DbcMessage` for one catalog message (lines 1559-1568). -/
def buildDbcMessage (m : CatMsg) : DbcMessageM :=
  ⟨m, m.signals.map initialValue⟩

/-- Python `str.lower` on the ASCII strings stored in the config,
written over the character list so that it evaluates. -/
def pyLower (s : String) : String := ⟨s.data.map Char.toLower⟩

/-- `CanConfig.getListenMode` (lines 959-960).  Reading a missing
`listen_mode` key raises KeyError in Python; `setupMessages` only calls
this for non-Logging interfaces, whose option sets all carry the key, so
the `none` case below is unreachable there. -/
def getListenMode (o : ConfigOption) : Bool :=
  match o.listen_mode with
  | some s => decide (pyLower s = "true")
  | none => false

/-- `'VCU' in msg.senders` guarded by `msg.senders is not None`
(lines 1571 and 1576). -/
def hasVCU (senders : Option (List String)) : Bool :=
  match senders with
  | some l => l.contains "VCU"
  | none => false

/-- The branch condition of `setupMessages` (lines 1569-1579): with the
Logging interface a message is outgoing iff VCU is among its senders;
otherwise listen mode must also be off. -/
def isTxMsg (o : ConfigOption) (m : CatMsg) : Bool :=
  if o.interface = "Logging" then hasVCU m.senders
  else hasVCU m.senders && ! getListenMode o

/-- The effective listen mode: the Logging branch never consults listen
mode (its option set has no such key), so it behaves as off. -/
def effListen (o : ConfigOption) : Bool :=
  if o.interface = "Logging" then false else getListenMode o

/-- `TabManager.setupMessages` (lines 1557-1579): build a `DbcMessage`
per catalog message and append it to `txMsgs` or `rxMsgs`. -/
def setupMessages (o : ConfigOption) : List CatMsg → List DbcMessageM × List DbcMessageM
  | [] => ([], [])
  | m :: rest =>
      let r := setupMessages o rest
      if isTxMsg o m then (buildDbcMessage m :: r.1, r.2)
      else (r.1, buildDbcMessage m :: r.2)

end TabManager

/-! ## Decidability of the catalog sanity predicates -/

instance decPosDisjoint (s1 s2 : SigLayout) : Decidable (Codec.PosDisjoint s1 s2) :=
  inferInstanceAs (Decidable (∀ i < s1.length, ∀ j < s2.length,
    Codec.sigPos s1 i ≠ Codec.sigPos s2 j))

instance decLayoutSane (L : MsgLayout) : Decidable (Codec.LayoutSane L) :=
  inferInstanceAs (Decidable
    ((∀ s ∈ L.signals, ∀ i < s.length, Codec.sigPos s i < 8 * L.byteLength) ∧
     (∀ s1 ∈ L.signals, ∀ s2 ∈ L.signals, s1 ≠ s2 → Codec.PosDisjoint s1 s2)))

instance decRawFits (s : SigLayout) (r : ℤ) : Decidable (Codec.RawFits s r) := by
  unfold Codec.RawFits
  split <;> infer_instance

/-- The one-shot transmissions among a list of bus actions. -/
def isBusSend : BusAction → Bool
  | .busSend _ _ => true
  | _ => false

/-! ## Concrete fixtures used to instantiate the theorems -/

/-- The RPM signal of the concrete scenario in spec section 8. -/
def rpmSig : SigLayout := ⟨"RPM", 0, 16, true, false, 1/4, 0, some 0, some 8000, []⟩

/-- A two-bit enumeration signal with choices OFF and ON. -/
def modeSig : SigLayout :=
  ⟨"Mode", 16, 2, true, false, 1, 0, none, none, [(0, "OFF"), (1, "ON")]⟩

/-- The EngineStatus message of the concrete scenario in spec section 8,
extended with the enumeration signal. -/
def engineLayout : MsgLayout := ⟨0x100, false, 8, "EngineStatus", [rpmSig, modeSig]⟩

/-- Operator values for `engineLayout`: RPM 4000, Mode ON. -/
def engineValues : String → SigVal := fun nm =>
  if nm = "RPM" then .num 4000 else if nm = "Mode" then .choice "ON" else .num 0

/-- A bus with no periodic tasks. -/
def emptyBus : BusState := ⟨[], 0⟩

/-- A bus with one running periodic task for id 1: payload one zero byte
bit, period 0.1 s, task identity 0. -/
def c1Bus : BusState := ⟨[(1, ⟨[false], 1/10, 0, true⟩)], 1⟩

/-- A 16-bit unsigned signal with scale 1, minimum 0, maximum 10. -/
def c3Sig : SigLayout := ⟨"Throttle", 0, 16, true, false, 1, 0, some 0, some 10, []⟩

/-- A message carrying only `c3Sig`. -/
def c3Layout : MsgLayout := ⟨0x200, false, 8, "Cmd", [c3Sig]⟩

/-- A transmit table for `c3Layout`, not queued, not sending. -/
def c3Tx : TxModelState :=
  ⟨c3Layout, [.num 0], [.num 0], false, false, false, 0,
   TxMsgModel.getMsgData c3Layout [.num 0]⟩

/-- A 16-bit signed signal with scale 1 and offset 1/2, unbounded. -/
def c5Sig : SigLayout := ⟨"Temp", 0, 16, true, true, 1, 1/2, none, none, []⟩

/-- A message carrying only `c5Sig`. -/
def c5Layout : MsgLayout := ⟨0x300, false, 8, "Env", [c5Sig]⟩

/-- A transmit table for `c5Layout`. -/
def c5Tx : TxModelState :=
  ⟨c5Layout, [.num 0], [.num 0], false, false, false, 0,
   TxMsgModel.getMsgData c5Layout [.num 0]⟩

/-- A bus with one running periodic task for id 0x200 (the frame id of
`c3Layout`): period 0.2 s, task identity 3. -/
def c6Bus : BusState := ⟨[(0x200, ⟨[true], 1/5, 3, true⟩)], 4⟩

/-- A transmit table for `c3Layout` that is currently sending at 5 Hz
with the Send checkbox checked. -/
def c6Tx : TxModelState := ⟨c3Layout, [.num 0], [.num 0], false, true, true, 5, [true]⟩

/-- A 16-bit signed signal with no minimum and maximum 10. -/
def c7Sig : SigLayout := ⟨"Torque", 0, 16, true, true, 1, 0, none, some 10, []⟩

/-- A message carrying only `c7Sig`. -/
def c7Layout : MsgLayout := ⟨0x400, false, 8, "Drive", [c7Sig]⟩

/-- A transmit table for `c7Layout` with queued changes on. -/
def c7Tx : TxModelState := ⟨c7Layout, [.num 0], [.num 0], true, false, false, 0, []⟩

/-- A 16-bit unsigned signal with scale 4, minimum 0, maximum 10. -/
def c9Sig : SigLayout := ⟨"Cfg", 0, 16, true, false, 4, 0, some 0, some 10, []⟩

/-- A message carrying only `c9Sig`. -/
def c9Layout : MsgLayout := ⟨0x500, false, 8, "Conf", [c9Sig]⟩

/-- A transmit table for `c9Layout` with queued changes on. -/
def c9Tx : TxModelState := ⟨c9Layout, [.num 0], [.num 0], true, false, false, 0, []⟩

/-- A bus with one running periodic task for id 7. -/
def c10Bus : BusState := ⟨[(7, ⟨[true], 1/5, 3, true⟩)], 4⟩

/-- A receive row for the Throttle signal. -/
def rxRowEx : RxSigRow := ⟨"Throttle", .num 0, [], false⟩

/-- A receive table for `c3Layout`. -/
def rxModelEx : RxModelState := ⟨c3Layout, [rxRowEx], [], none, none, []⟩

/-- A receive tab on channel chan0 with one table for frame id 0x200. -/
def rxTabEx : RxTabState := ⟨"chan0", [(0x200, rxModelEx)]⟩

/-- A non-Logging option set with listen mode off. -/
def optNormal : ConfigOption := ⟨"udp_multicast", some "False"⟩

/-- A non-Logging option set with listen mode on. -/
def optListen : ConfigOption := ⟨"udp_multicast", some "True"⟩

/-- A catalog message sent by the VCU. -/
def catMsgVcu : CatMsg := ⟨1, some ["VCU"], [⟨"A", 1, .numeric (5/2)⟩]⟩

/-- A catalog message sent by another node. -/
def catMsgMotor : CatMsg := ⟨2, some ["MOTOR"], []⟩

/-! ## Properties of the embedding -/

theorem bankersRound_intCast (k : ℤ) : bankersRound (k : ℚ) = k := by
  simp [bankersRound]

theorem abs_bankersRound_sub_le (q : ℚ) :
    |(bankersRound q : ℚ) - q| ≤ 1/2 := by
  have hfl : (⌊q⌋ : ℚ) ≤ q := Int.floor_le q
  have hfu : q < (⌊q⌋ : ℚ) + 1 := Int.lt_floor_add_one q
  unfold bankersRound
  by_cases h1 : q - (⌊q⌋ : ℚ) < 1/2
  · simp only [h1, if_true]
    rw [abs_le]
    constructor <;> linarith
  · simp only [h1, if_false]
    by_cases h2 : (1:ℚ)/2 < q - (⌊q⌋ : ℚ)
    · simp only [h2, if_true]
      rw [abs_le]
      constructor <;> push_cast <;> linarith
    · simp only [h2, if_false]
      have heq : q - (⌊q⌋ : ℚ) = 1/2 := le_antisymm (not_lt.mp h2) (not_lt.mp h1)
      by_cases h3 : Even ⌊q⌋ <;> simp only [h3, if_true, if_false] <;>
        rw [abs_le] <;> constructor <;> push_cast <;> linarith


namespace Codec

theorem beRank_beStep (p : ℕ) : beRank (beStep p) = beRank p + 1 := by
  unfold beRank beStep
  by_cases h : p % 8 = 0 <;> simp only [h, if_true, if_false] <;> omega

theorem beRank_beDesc (p k : ℕ) : beRank (beDesc p k) = beRank p + k := by
  induction k with
  | zero => rfl
  | succ k ih =>
      rw [beDesc, beRank_beStep, ih]
      omega

theorem beDesc_inj {p k1 k2 : ℕ} (h : beDesc p k1 = beDesc p k2) : k1 = k2 := by
  have := congrArg beRank h
  rw [beRank_beDesc, beRank_beDesc] at this
  omega

theorem sigPos_inj (s : SigLayout) {i j : ℕ} (hi : i < s.length)
    (hj : j < s.length) (h : sigPos s i = sigPos s j) : i = j := by
  unfold sigPos at h
  by_cases hbo : s.byteOrderLE
  · simp only [hbo, if_true] at h; omega
  · simp only [hbo, if_false] at h
    have := beDesc_inj h
    omega

theorem getD_range_map {α : Type} (f : ℕ → α) (a : α) {n p : ℕ} (h : p < n) :
    ((List.range n).map f).getD p a = f p := by
  simp [List.getD_eq_getElem?_getD, List.getElem?_map, List.getElem?_range h]

theorem encode_payloadBit (L : MsgLayout) (values : String → SigVal)
    (hL : LayoutSane L) {s : SigLayout} (hs : s ∈ L.signals) {i : ℕ}
    (hi : i < s.length) :
    payloadBit (encode L values) (sigPos s i) = rawBit s (values s.name) i := by
  have hp : sigPos s i < 8 * L.byteLength := hL.1 s hs i hi
  unfold payloadBit encode
  rw [getD_range_map _ _ hp]
  cases hbit : rawBit s (values s.name) i
  · rw [List.any_eq_false]
    intro s2 hs2
    rw [List.any_eq_true]
    rintro ⟨j, hj, hjj⟩
    rw [Bool.and_eq_true, decide_eq_true_eq] at hjj
    obtain ⟨hpos, hbit2⟩ := hjj
    by_cases hss : s2 = s
    · subst hss
      have hji : j = i := sigPos_inj s2 (List.mem_range.mp hj) hi hpos
      subst hji
      rw [hbit2] at hbit
      simp at hbit
    · exact hL.2 s2 hs2 s hs hss j (List.mem_range.mp hj) i hi hpos
  · rw [List.any_eq_true]
    refine ⟨s, hs, ?_⟩
    rw [List.any_eq_true]
    exact ⟨i, List.mem_range.mpr hi, by simp [hbit]⟩

theorem sum_testBit (m n : ℕ) :
    (∑ i ∈ Finset.range n, if m.testBit i then 2 ^ i else 0) = m % 2 ^ n := by
  induction n with
  | zero => simp [Nat.mod_one]
  | succ k ih =>
      rw [Finset.sum_range_succ, ih, pow_succ, Nat.mod_mul]
      rcases Nat.mod_two_eq_zero_or_one (m / 2 ^ k) with h | h <;>
        simp [Nat.testBit_to_div_mod, h]

theorem rawNat_lt (s : SigLayout) (v : SigVal) : rawNat s v < 2 ^ s.length := by
  unfold rawNat
  have hpos : (0 : ℤ) < 2 ^ s.length := by positivity
  have h1 : 0 ≤ (rawOfValue s v) % (2 ^ s.length : ℤ) :=
    Int.emod_nonneg _ (ne_of_gt hpos)
  have h2 : (rawOfValue s v) % (2 ^ s.length : ℤ) < 2 ^ s.length :=
    Int.emod_lt_of_pos _ hpos
  have hcast : ((2 ^ s.length : ℕ) : ℤ) = 2 ^ s.length := by push_cast; ring
  omega

theorem decodeU_encode (L : MsgLayout) (values : String → SigVal)
    (hL : LayoutSane L) {s : SigLayout} (hs : s ∈ L.signals) :
    decodeU (encode L values) s = rawNat s (values s.name) := by
  unfold decodeU
  have hcongr : ∀ i ∈ Finset.range s.length,
      (if payloadBit (encode L values) (sigPos s i) then 2 ^ i else 0) =
      (if (rawNat s (values s.name)).testBit i then 2 ^ i else 0) := by
    intro i hi
    rw [encode_payloadBit L values hL hs (Finset.mem_range.mp hi)]
    rfl
  rw [Finset.sum_congr rfl hcongr, sum_testBit]
  exact Nat.mod_eq_of_lt (rawNat_lt s (values s.name))

theorem decodeRaw_encode (L : MsgLayout) (values : String → SigVal)
    (hL : LayoutSane L) {s : SigLayout} (hs : s ∈ L.signals)
    (hlen : 1 ≤ s.length)
    (hfit : RawFits s (rawOfValue s (values s.name))) :
    decodeRaw (encode L values) s = rawOfValue s (values s.name) := by
  unfold decodeRaw
  rw [decodeU_encode L values hL hs]
  set r := rawOfValue s (values s.name) with hr
  set N := rawNat s (values s.name) with hNdef
  have hpos : (0 : ℤ) < 2 ^ s.length := by positivity
  have hN : (N : ℤ) = r % (2 ^ s.length : ℤ) := by
    rw [hNdef]
    unfold rawNat
    rw [← hr]
    have := Int.emod_nonneg r (ne_of_gt hpos)
    omega
  have hcast1 : ((2 ^ (s.length - 1) : ℕ) : ℤ) = 2 ^ (s.length - 1) := by
    push_cast; ring
  have hsplit : (2 : ℤ) ^ s.length = 2 ^ (s.length - 1) * 2 := by
    rw [← pow_succ]
    congr 1
    omega
  have hp1 : (0 : ℤ) ≤ 2 ^ (s.length - 1) := by positivity
  have hhalf : (2 : ℤ) ^ (s.length - 1) ≤ 2 ^ s.length := by
    rw [hsplit]; linarith
  unfold RawFits at hfit
  cases hsig : s.isSigned
  · rw [hsig] at hfit
    simp at hfit
    have hemod : r % (2 ^ s.length : ℤ) = r := Int.emod_eq_of_lt hfit.1 hfit.2
    rw [if_neg (by simp)]
    rw [hN, hemod]
  · rw [hsig] at hfit
    simp at hfit
    by_cases hneg : 0 ≤ r
    · have hemod : r % (2 ^ s.length : ℤ) = r :=
        Int.emod_eq_of_lt hneg (by omega)
      have hlt : ¬ 2 ^ (s.length - 1) ≤ N := by omega
      rw [if_neg (by simp [hlt])]
      rw [hN, hemod]
    · have haux : (r + 2 ^ s.length * 1) % (2 ^ s.length : ℤ) =
          r % (2 ^ s.length : ℤ) :=
        Int.add_mul_emod_self_left r (2 ^ s.length) 1
      have hemod : r % (2 ^ s.length : ℤ) = r + 2 ^ s.length := by
        rw [← haux, mul_one]
        exact Int.emod_eq_of_lt (by omega) (by omega)
      have hgeZ : (2 : ℤ) ^ (s.length - 1) ≤ (N : ℤ) := by
        rw [hN, hemod, hsplit]
        omega
      have hge : 2 ^ (s.length - 1) ≤ N := by omega
      rw [if_pos (by simp [hge])]
      rw [hN, hemod]
      ring

theorem find?_key_of_nodup {l : List (ℤ × String)} {r : ℤ} {nm : String}
    (hnd : (l.map Prod.fst).Nodup) (hmem : (r, nm) ∈ l) :
    l.find? (fun c => decide (c.1 = r)) = some (r, nm) := by
  induction l with
  | nil => cases hmem
  | cons a t ih =>
      rw [List.map_cons] at hnd
      rcases List.nodup_cons.mp hnd with ⟨ha, ht⟩
      rcases List.mem_cons.mp hmem with hhead | htail
      · subst hhead
        rw [List.find?_cons]
        simp
      · have hne : a.1 ≠ r := by
          intro hk
          exact ha (hk ▸ List.mem_map_of_mem Prod.fst htail)
        rw [List.find?_cons]
        have hd : (decide (a.1 = r)) = false := by simpa using hne
        simp only [hd]
        exact ih ht htail

end Codec

namespace CanBusHandler

theorem lookupL_cons (a : ℕ × SendDetails) (t : List (ℕ × SendDetails))
    (id : ℕ) :
    lookupL (a :: t) id = if a.1 = id then some a.2 else lookupL t id := by
  unfold lookupL
  rw [List.find?_cons]
  by_cases hk : a.1 = id
  · simp [hk]
  · simp [hk]

theorem setEntry_cons (a : ℕ × SendDetails) (t : List (ℕ × SendDetails))
    (id : ℕ) (e : SendDetails) :
    setEntry (a :: t) id e =
      (if a.1 = id then (a.1, e) else a) :: setEntry t id e := rfl

theorem lookupL_setEntry_same (l : List (ℕ × SendDetails)) (id : ℕ)
    (e e2 : SendDetails) (h : lookupL l id = some e) :
    lookupL (setEntry l id e2) id = some e2 := by
  induction l with
  | nil => simp [lookupL] at h
  | cons a t ih =>
      rw [setEntry_cons]
      by_cases hk : a.1 = id
      · rw [if_pos hk, lookupL_cons, if_pos hk]
      · rw [if_neg hk, lookupL_cons, if_neg hk]
        rw [lookupL_cons, if_neg hk] at h
        exact ih h

theorem lookupL_setEntry_ne (l : List (ℕ × SendDetails)) (id id2 : ℕ)
    (e2 : SendDetails) (h : id2 ≠ id) :
    lookupL (setEntry l id e2) id2 = lookupL l id2 := by
  induction l with
  | nil => rfl
  | cons a t ih =>
      rw [setEntry_cons]
      by_cases hk : a.1 = id
      · have hk2 : ¬ a.1 = id2 := fun hc => h (by rw [← hc]; exact hk)
        rw [if_pos hk, lookupL_cons, lookupL_cons, if_neg hk2, if_neg hk2]
        exact ih
      · rw [if_neg hk, lookupL_cons, lookupL_cons]
        by_cases hk2 : a.1 = id2
        · rw [if_pos hk2, if_pos hk2]
        · rw [if_neg hk2, if_neg hk2]
          exact ih

end CanBusHandler

namespace TxMsgModel

theorem setData_spec (tx : TxModelState) (bus : BusState) (row : ℕ)
    (s : SigLayout) (input : TxInput)
    (hrow : tx.layout.signals[row]? = some s) :
    ((setData tx bus row input).2.2.2 = true ↔
      (minOk s (requestedValue s input) = true ∧
       maxOk s (requestedValue s input) = true)) ∧
    (¬ (minOk s (requestedValue s input) = true ∧
        maxOk s (requestedValue s input) = true) →
      setData tx bus row input = (tx, bus, [], false)) ∧
    ((setData tx bus row input).2.2.2 = true →
      (setData tx bus row input).1.sigValues =
        tx.sigValues.set row (SigVal.num (requestedValue s input))) := by
  by_cases hc : (minOk s (requestedValue s input) &&
      maxOk s (requestedValue s input)) = true
  · have hcc := Bool.and_eq_true_iff.mp hc
    have hres : (setData tx bus row input).2.2.2 = true ∧
        (setData tx bus row input).1.sigValues =
          tx.sigValues.set row (SigVal.num (requestedValue s input)) := by
      unfold setData
      rw [hrow]
      simp only [hc, if_true]
      by_cases hq : tx.isQueue
      · simp [hq]
      · simp [hq, applyChange]
        by_cases hsend : tx.isSend <;> simp [hsend]
    refine ⟨⟨fun _ => hcc, fun _ => hres.1⟩, fun hcontra => absurd hcc hcontra,
      fun _ => hres.2⟩
  · have hcc : ¬ (minOk s (requestedValue s input) = true ∧
        maxOk s (requestedValue s input) = true) := fun h =>
      hc (Bool.and_eq_true_iff.mpr h)
    have hcf : (minOk s (requestedValue s input) &&
        maxOk s (requestedValue s input)) = false := by
      revert hc
      cases (minOk s (requestedValue s input) &&
        maxOk s (requestedValue s input)) <;> simp
    have hres : setData tx bus row input = (tx, bus, [], false) := by
      unfold setData
      rw [hrow]
      simp [hcf]
    refine ⟨⟨fun habs => ?_, fun h => absurd h hcc⟩, fun _ => hres, fun habs => ?_⟩
    · rw [hres] at habs; simp at habs
    · rw [hres] at habs; simp at habs

end TxMsgModel

/-! ## Claim theorems -/

/-- Claim C10: calling `CanBusHandler.stop` for a message whose
identifier has no entry in the periodic-task table is a total no-op: the
state is returned unchanged and no task operation is emitted; only when
an entry exists is exactly that entry task stopped, every other entry
being left unchanged. -/
theorem stop_unknown_id_noop_C10 (st : BusState) (id : ℕ) :
    (CanBusHandler.lookupMsg st id = none →
      CanBusHandler.stop st id = (st, [])) ∧
    (∀ e, CanBusHandler.lookupMsg st id = some e →
      (CanBusHandler.stop st id).2 = [BusAction.taskStop e.task] ∧
      CanBusHandler.lookupMsg (CanBusHandler.stop st id).1 id =
        some { e with running := false } ∧
      (∀ id2, id2 ≠ id →
        CanBusHandler.lookupMsg (CanBusHandler.stop st id).1 id2 =
          CanBusHandler.lookupMsg st id2) ∧
      (CanBusHandler.stop st id).1.nextTask = st.nextTask) := by
  constructor
  · intro h
    unfold CanBusHandler.stop
    rw [h]
  · intro e h
    unfold CanBusHandler.stop
    rw [h]
    refine ⟨rfl, ?_, ?_, rfl⟩
    · exact CanBusHandler.lookupL_setEntry_same st.periodicMsgs id e _ h
    · intro id2 h2
      exact CanBusHandler.lookupL_setEntry_ne st.periodicMsgs id id2 _ h2

/-- Witness for C10: on a bus whose only task is registered for id 7,
stopping id 9 is the identity with no emitted task operation. -/
theorem stop_unknown_id_noop_witness_C10 :
    CanBusHandler.lookupMsg c10Bus 9 = none ∧
    CanBusHandler.stop c10Bus 9 = (c10Bus, []) :=
  ⟨by decide, (stop_unknown_id_noop_C10 c10Bus 9).1 (by decide)⟩

/-- Claim C4: a received frame whose identifier is absent from the
per-message table map of the receive tab leaves the tab state exactly
unchanged: no decode is attempted and no signal-value table of any
message is mutated (and the handler is a total function, so no error is
raised). -/
theorem handleRxCanMsg_unknown_id_C4 (tab : RxTabState) (id : ℕ)
    (data : Payload) (timestamp : ℚ) (channel : String)
    (h : tab.msgTables.find? (fun p => decide (p.1 = id)) = none) :
    RxTab.handleRxCanMsg tab id data timestamp channel = tab := by
  unfold RxTab.handleRxCanMsg
  by_cases hch : tab.channel ≠ channel
  · rw [if_pos hch]
  · rw [if_neg hch, h]

/-- Witness for C4: the tab carrying only frame id 0x200 ignores a frame
with id 99 on the matching channel. -/
theorem handleRxCanMsg_unknown_id_witness_C4 :
    rxTabEx.msgTables.find? (fun p => decide (p.1 = 99)) = none ∧
    RxTab.handleRxCanMsg rxTabEx 99 [true] 0 "chan0" = rxTabEx :=
  ⟨by decide, handleRxCanMsg_unknown_id_C4 rxTabEx 99 [true] 0 "chan0" (by decide)⟩

/-- Claim C1 counterexample: bus `c1Bus` runs task 0 for id 1 at period
0.1 s with payload `[false]`.  A send request with the same id and
frequency 10 Hz (hence the same period) but the new payload `[true]`
stops task 0 and registers a brand-new periodic task 1: the payload is
not updated in place, and the schedule phase is reset although the
period did not change — contradicting the claim that only a period
change stops the old task and starts a new one. -/
theorem sendCanMessage_payload_restart_counterexample_C1 :
    CanBusHandler.lookupMsg c1Bus 1 = some ⟨[false], 1/10, 0, true⟩ ∧
    (CanBusHandler.sendCanMessage c1Bus 1 [true] 10).2 =
      [BusAction.taskStop 0, BusAction.sendPeriodic 1 1 [true] (1/10)] ∧
    CanBusHandler.lookupMsg
      (CanBusHandler.sendCanMessage c1Bus 1 [true] 10).1 1 =
      some ⟨[true], 1/10, 1, true⟩ := by
  decide

/-- Claim C1 (amended): while a periodic task is registered for an
identifier, a send request with the same nonzero frequency (same period)
and a changed payload stops the currently ticking task and registers a
brand-new periodic task carrying the new payload at the same period, so
the phase is reset exactly as for a period change; the payload is not
updated in place.  (The resume branch `task.start()` of the source is
unreachable because line 171 compares the stored period against the
one-element list `[period]`, which is always unequal.) -/
theorem sendCanMessage_payload_update_C1 (st : BusState) (id : ℕ)
    (data : Payload) (frequency : ℚ) (e : SendDetails)
    (hfreq : frequency ≠ 0)
    (hlook : CanBusHandler.lookupMsg st id = some e)
    (_hperiod : e.period = 1 / frequency)
    (hdata : e.data ≠ data) :
    CanBusHandler.sendCanMessage st id data frequency =
      ({ periodicMsgs := CanBusHandler.setEntry st.periodicMsgs id
           ⟨data, 1 / frequency, st.nextTask, true⟩,
         nextTask := st.nextTask + 1 },
       [BusAction.taskStop e.task,
        BusAction.sendPeriodic st.nextTask id data (1 / frequency)]) := by
  unfold CanBusHandler.sendCanMessage
  rw [if_neg hfreq, hlook]
  dsimp only
  rw [if_pos (Or.inr hdata)]
  rfl

/-- Witness for C1 (amended): the concrete payload-only update on
`c1Bus`. -/
theorem sendCanMessage_payload_update_witness_C1 :
    (10 : ℚ) ≠ 0 ∧
    CanBusHandler.lookupMsg c1Bus 1 = some ⟨[false], 1/10, 0, true⟩ ∧
    (SendDetails.mk [false] (1/10) 0 true).period = 1 / (10 : ℚ) ∧
    (SendDetails.mk [false] (1/10) 0 true).data ≠ [true] ∧
    CanBusHandler.sendCanMessage c1Bus 1 [true] 10 =
      ({ periodicMsgs := CanBusHandler.setEntry c1Bus.periodicMsgs 1
           ⟨[true], 1 / 10, c1Bus.nextTask, true⟩,
         nextTask := c1Bus.nextTask + 1 },
       [BusAction.taskStop 0,
        BusAction.sendPeriodic c1Bus.nextTask 1 [true] (1 / 10)]) := by
  refine ⟨by norm_num, by decide, by decide, by decide, ?_⟩
  exact sendCanMessage_payload_update_C1 c1Bus 1 [true] 10
    ⟨[false], 1/10, 0, true⟩ (by norm_num) (by decide) (by decide) (by decide)

/-- Claim C6: a send request with frequency 0 transmits the frame
exactly once immediately and leaves no periodic task running for the
identifier.  With no registered task the scheduler state is untouched
(one-shot); with a registered task, the user-level frequency change to 0
(`frequencyChanged`, whose `setSend` signal unchecks the Send box and
reaches `sendChanged(False)` and `bus.stop`) stops that task; no new
task is ever created. -/
theorem sendRequest_frequency_zero_C6 (tx : TxModelState) (bus : BusState)
    (hsend : tx.isSend = true) (hchk : tx.sendChecked = true) :
    (CanBusHandler.sendCanMessage bus tx.layout.frameId tx.canBusMsgData 0 =
      (bus, [BusAction.busSend tx.layout.frameId tx.canBusMsgData])) ∧
    ((TxMsgModel.frequencyChanged tx bus 0).2.2.filter isBusSend =
      [BusAction.busSend tx.layout.frameId tx.canBusMsgData]) ∧
    ((TxMsgModel.frequencyChanged tx bus 0).1.isSend = false) ∧
    ((TxMsgModel.frequencyChanged tx bus 0).2.1.nextTask = bus.nextTask) ∧
    (CanBusHandler.lookupMsg bus tx.layout.frameId = none →
      (TxMsgModel.frequencyChanged tx bus 0).2.1 = bus) ∧
    (∀ e, CanBusHandler.lookupMsg bus tx.layout.frameId = some e →
      CanBusHandler.lookupMsg (TxMsgModel.frequencyChanged tx bus 0).2.1
        tx.layout.frameId = some { e with running := false }) := by
  have hone : CanBusHandler.sendCanMessage bus tx.layout.frameId
      tx.canBusMsgData 0 =
      (bus, [BusAction.busSend tx.layout.frameId tx.canBusMsgData]) := by
    unfold CanBusHandler.sendCanMessage
    rw [if_pos rfl]
  have hfc : TxMsgModel.frequencyChanged tx bus 0 =
      ({ tx with frequency := 0, sendChecked := false, isSend := false },
       (CanBusHandler.stop bus tx.layout.frameId).1,
       BusAction.busSend tx.layout.frameId tx.canBusMsgData ::
         (CanBusHandler.stop bus tx.layout.frameId).2) := by
    unfold TxMsgModel.frequencyChanged
    rw [if_pos hsend, hone]
    rw [if_pos (rfl : (0 : ℚ) = 0)]
    unfold TxMsgModel.emitSetSendFalse
    rw [if_pos hchk]
    unfold TxMsgModel.sendChangedFalse
    rfl
  refine ⟨hone, ?_, ?_, ?_, ?_, ?_⟩
  · rw [hfc]
    cases hl : CanBusHandler.lookupMsg bus tx.layout.frameId with
    | none =>
        unfold CanBusHandler.stop
        rw [hl]
        rfl
    | some e =>
        unfold CanBusHandler.stop
        rw [hl]
        rfl
  · rw [hfc]
  · rw [hfc]
    cases hl : CanBusHandler.lookupMsg bus tx.layout.frameId with
    | none =>
        unfold CanBusHandler.stop
        rw [hl]
    | some e =>
        unfold CanBusHandler.stop
        rw [hl]
  · intro h
    rw [hfc]
    unfold CanBusHandler.stop
    rw [h]
  · intro e h
    rw [hfc]
    unfold CanBusHandler.stop
    rw [h]
    exact CanBusHandler.lookupL_setEntry_same bus.periodicMsgs
      tx.layout.frameId e _ h

/-- Witness for C6: a transmit table sending at 5 Hz with a running task
for its frame id 0x200; changing the frequency to 0 sends exactly one
frame and leaves the task stopped. -/
theorem sendRequest_frequency_zero_witness_C6 :
    c6Tx.isSend = true ∧ c6Tx.sendChecked = true ∧
    (TxMsgModel.frequencyChanged c6Tx c6Bus 0).2.2.filter isBusSend =
      [BusAction.busSend 512 [true]] ∧
    CanBusHandler.lookupMsg (TxMsgModel.frequencyChanged c6Tx c6Bus 0).2.1 512 =
      some ⟨[true], 1/5, 3, false⟩ := by
  have h := sendRequest_frequency_zero_C6 c6Tx c6Bus rfl rfl
  exact ⟨rfl, rfl, h.2.1, h.2.2.2.2.2 ⟨[true], 1/5, 3, true⟩ rfl⟩

/-- Claim C3 counterexample: `c3Sig` has maximum 10 and scale 1.  The
operator decimal input 10.4 is strictly above the maximum, yet `setData`
accepts the edit (returning true) because the value is first rounded to
the scale grid, storing 10. -/
theorem setData_above_max_accepted_counterexample_C3 :
    c3Sig.maximum = some 10 ∧ (10 : ℚ) < 52/5 ∧
    (TxMsgModel.setData c3Tx emptyBus 0 (TxInput.dec (52/5))).2.2.2 = true ∧
    (TxMsgModel.setData c3Tx emptyBus 0 (TxInput.dec (52/5))).1.sigValues =
      [SigVal.num 10] := by
  refine ⟨rfl, by norm_num, ?_, ?_⟩ <;> decide

/-- Claim C3 (amended): the range check runs on the requested logical
value — hex input taken directly, decimal input first rounded half-to-even
to the scale grid — and acceptance holds iff that requested value lies
within the configured bounds, bounds included and an absent bound never
rejecting; a rejected edit returns false and changes neither the table
state nor the bus and emits no transmission.  An operator decimal
strictly above the maximum can therefore still be accepted when rounding
brings it back inside the range. -/
theorem setData_range_check_C3 (tx : TxModelState) (bus : BusState)
    (row : ℕ) (s : SigLayout) (input : TxInput)
    (hrow : tx.layout.signals[row]? = some s) :
    ((TxMsgModel.setData tx bus row input).2.2.2 = true ↔
      (TxMsgModel.minOk s (TxMsgModel.requestedValue s input) = true ∧
       TxMsgModel.maxOk s (TxMsgModel.requestedValue s input) = true)) ∧
    (¬ (TxMsgModel.minOk s (TxMsgModel.requestedValue s input) = true ∧
        TxMsgModel.maxOk s (TxMsgModel.requestedValue s input) = true) →
      TxMsgModel.setData tx bus row input = (tx, bus, [], false)) :=
  ⟨(TxMsgModel.setData_spec tx bus row s input hrow).1,
   (TxMsgModel.setData_spec tx bus row s input hrow).2.1⟩

/-- Witness for C3 (amended): the value exactly at the maximum is
accepted, and 17 (above the maximum even after rounding) is rejected
leaving the state untouched. -/
theorem setData_range_check_witness_C3 :
    c3Tx.layout.signals[0]? = some c3Sig ∧
    TxMsgModel.requestedValue c3Sig (TxInput.dec 10) = 10 ∧
    c3Sig.maximum = some 10 ∧
    (TxMsgModel.setData c3Tx emptyBus 0 (TxInput.dec 10)).2.2.2 = true ∧
    TxMsgModel.setData c3Tx emptyBus 0 (TxInput.dec 17) =
      (c3Tx, emptyBus, [], false) := by
  refine ⟨rfl, by decide, rfl, ?_, ?_⟩
  · exact (setData_range_check_C3 c3Tx emptyBus 0 c3Sig
      (TxInput.dec 10) rfl).1.mpr ⟨by decide, by decide⟩
  · exact (setData_range_check_C3 c3Tx emptyBus 0 c3Sig
      (TxInput.dec 17) rfl).2 (by decide)

/-- Claim C5 counterexample: `c5Sig` has scale 1 and offset 1/2.  The
operator input 1.1 is stored as 1 (rounded to the zero-anchored scale
grid, ignoring the offset), and the raw integer encoded from the stored
value is round((1 - 1/2)/1) = 0, whereas the claim prescribes
round((1.1 - 1/2)/1) = 1. -/
theorem setData_raw_offset_counterexample_C5 :
    c5Sig.scale = 1 ∧ c5Sig.offset = 1/2 ∧
    (TxMsgModel.setData c5Tx emptyBus 0 (TxInput.dec (11/10))).1.sigValues =
      [SigVal.num 1] ∧
    Codec.rawOfValue c5Sig (SigVal.num 1) = 0 ∧
    bankersRound ((11/10 - c5Sig.offset) / c5Sig.scale) = 1 := by
  refine ⟨rfl, rfl, ?_, ?_, ?_⟩ <;> decide

/-- Claim C5 (amended): for a decimal edit the stored logical value is
the input rounded half-to-even to the nearest multiple of the scale, the
offset playing no role in the quantization; the raw integer subsequently
encoded from the stored value is round((stored - offset)/scale), which
equals round(value/scale) exactly when the offset is zero. -/
theorem setData_quantization_C5 (tx : TxModelState) (bus : BusState)
    (row : ℕ) (s : SigLayout) (v : ℚ)
    (hrow : tx.layout.signals[row]? = some s) (hscale : s.scale ≠ 0)
    (hacc : (TxMsgModel.setData tx bus row (TxInput.dec v)).2.2.2 = true) :
    (TxMsgModel.setData tx bus row (TxInput.dec v)).1.sigValues =
      tx.sigValues.set row
        (SigVal.num ((bankersRound (v / s.scale) : ℚ) * s.scale)) ∧
    (s.offset = 0 →
      Codec.rawOfValue s
        (SigVal.num ((bankersRound (v / s.scale) : ℚ) * s.scale)) =
        bankersRound (v / s.scale)) := by
  constructor
  · exact (TxMsgModel.setData_spec tx bus row s (TxInput.dec v) hrow).2.2 hacc
  · intro hoff
    show bankersRound ((((bankersRound (v / s.scale) : ℚ) * s.scale) - s.offset)
        / s.scale) = bankersRound (v / s.scale)
    rw [hoff, sub_zero, mul_div_cancel_right₀ _ hscale, bankersRound_intCast]

/-- Witness for C5 (amended): storing 7 on the scale-1 zero-offset
signal keeps 7, and the encoded raw integer equals round(7/1). -/
theorem setData_quantization_witness_C5 :
    c3Sig.scale ≠ 0 ∧
    (TxMsgModel.setData c3Tx emptyBus 0 (TxInput.dec 7)).2.2.2 = true ∧
    (TxMsgModel.setData c3Tx emptyBus 0 (TxInput.dec 7)).1.sigValues =
      [SigVal.num ((bankersRound ((7 : ℚ) / c3Sig.scale) : ℚ) * c3Sig.scale)] ∧
    Codec.rawOfValue c3Sig
      (SigVal.num ((bankersRound ((7 : ℚ) / c3Sig.scale) : ℚ) * c3Sig.scale)) =
      bankersRound ((7 : ℚ) / c3Sig.scale) := by
  have hacc : (TxMsgModel.setData c3Tx emptyBus 0 (TxInput.dec 7)).2.2.2 = true := by
    decide
  have h := setData_quantization_C5 c3Tx emptyBus 0 c3Sig 7 rfl (by decide) hacc
  exact ⟨by decide, hacc, h.1, h.2 rfl⟩

/-- Claim C7: a signal with an absent minimum treats that side as
unbounded: the lower check always passes (it does not default to 0),
acceptance depends only on the maximum side, and with both bounds absent
every edit is accepted. -/
theorem setData_absent_bound_unbounded_C7 (tx : TxModelState)
    (bus : BusState) (row : ℕ) (s : SigLayout) (input : TxInput)
    (hrow : tx.layout.signals[row]? = some s) (hmin : s.minimum = none) :
    TxMsgModel.minOk s (TxMsgModel.requestedValue s input) = true ∧
    ((TxMsgModel.setData tx bus row input).2.2.2 = true ↔
      TxMsgModel.maxOk s (TxMsgModel.requestedValue s input) = true) ∧
    (s.maximum = none → (TxMsgModel.setData tx bus row input).2.2.2 = true) := by
  have hminok : TxMsgModel.minOk s (TxMsgModel.requestedValue s input) = true := by
    unfold TxMsgModel.minOk
    rw [hmin]
  have hspec := TxMsgModel.setData_spec tx bus row s input hrow
  refine ⟨hminok, ?_, ?_⟩
  · constructor
    · intro h
      exact (hspec.1.mp h).2
    · intro h
      exact hspec.1.mpr ⟨hminok, h⟩
  · intro hmax
    apply hspec.1.mpr
    refine ⟨hminok, ?_⟩
    unfold TxMsgModel.maxOk
    rw [hmax]

/-- Witness for C7: the signal with no minimum accepts the negative
value -5, which a minimum defaulting to 0 would reject. -/
theorem setData_absent_bound_unbounded_witness_C7 :
    c7Sig.minimum = none ∧
    ((-5 : ℚ) < 0) ∧
    TxMsgModel.requestedValue c7Sig (TxInput.dec (-5)) = -5 ∧
    (TxMsgModel.setData c7Tx emptyBus 0 (TxInput.dec (-5))).2.2.2 = true := by
  refine ⟨rfl, by norm_num, by decide, ?_⟩
  exact (setData_absent_bound_unbounded_C7 c7Tx emptyBus 0 c7Sig
    (TxInput.dec (-5)) rfl rfl).2.1.mpr (by decide)

/-- Claim C9: an operator value string beginning with 0x is parsed as a
hexadecimal integer and used directly as the logical value — not
quantized to the scale grid as decimal input is — while the same
minimum/maximum check applies to it before acceptance. -/
theorem setData_hex_input_C9 (tx : TxModelState) (bus : BusState)
    (row : ℕ) (s : SigLayout) (n : ℕ)
    (hrow : tx.layout.signals[row]? = some s) :
    TxMsgModel.requestedValue s (TxInput.hexStr n) = (n : ℚ) ∧
    ((TxMsgModel.setData tx bus row (TxInput.hexStr n)).2.2.2 = true ↔
      (TxMsgModel.minOk s (n : ℚ) = true ∧ TxMsgModel.maxOk s (n : ℚ) = true)) ∧
    ((TxMsgModel.setData tx bus row (TxInput.hexStr n)).2.2.2 = true →
      (TxMsgModel.setData tx bus row (TxInput.hexStr n)).1.sigValues =
        tx.sigValues.set row (SigVal.num (n : ℚ))) := by
  have hreq : TxMsgModel.requestedValue s (TxInput.hexStr n) = (n : ℚ) := rfl
  have hspec := TxMsgModel.setData_spec tx bus row s (TxInput.hexStr n) hrow
  rw [hreq] at hspec
  exact ⟨hreq, hspec.1, hspec.2.2⟩

/-- Witness for C9: on the scale-4 signal, hex input 7 is stored as 7
(no quantization), although decimal input 7 would be quantized to 8; the
hex value passes the same range check. -/
theorem setData_hex_input_witness_C9 :
    c9Sig.scale = 4 ∧
    TxMsgModel.requestedValue c9Sig (TxInput.hexStr 7) = 7 ∧
    TxMsgModel.requestedValue c9Sig (TxInput.dec 7) = 8 ∧
    (TxMsgModel.setData c9Tx emptyBus 0 (TxInput.hexStr 7)).2.2.2 = true ∧
    (TxMsgModel.setData c9Tx emptyBus 0 (TxInput.hexStr 7)).1.sigValues =
      [SigVal.num 7] := by
  have h := setData_hex_input_C9 c9Tx emptyBus 0 c9Sig 7 rfl
  have hacc : (TxMsgModel.setData c9Tx emptyBus 0 (TxInput.hexStr 7)).2.2.2 =
      true := h.2.1.mpr ⟨by decide, by decide⟩
  refine ⟨rfl, by simp [TxMsgModel.requestedValue], by decide, hacc, ?_⟩
  have hset := h.2.2 hacc
  simpa using hset

/-- Claim C2: for a sane layout (in-bounds, pairwise disjoint signals)
and values whose raw integers fit their bit fields, encoding the values
into a payload and decoding it back yields, for each plain numeric
signal, a value within one quantization unit (the scale) of the
original, and for each enumeration choice (with well-formed unique raw
keys) exactly the original choice.  The codec is modelled from the spec
(section 4.1) because the application delegates it to the external
cantools library. -/
theorem encode_decode_roundtrip_C2 (L : MsgLayout) (values : String → SigVal)
    (hL : Codec.LayoutSane L) (s : SigLayout) (hs : s ∈ L.signals)
    (hlen : 1 ≤ s.length)
    (hfit : Codec.RawFits s (Codec.rawOfValue s (values s.name))) :
    (∀ v : ℚ, values s.name = SigVal.num v → s.choices = [] → 0 < s.scale →
      ∃ w : ℚ, Codec.decodeSig (Codec.encode L values) s = SigVal.num w ∧
        |w - v| ≤ s.scale) ∧
    (∀ nm : String, values s.name = SigVal.choice nm →
      (s.choices.map Prod.fst).Nodup →
      (s.choices.find? (fun c => decide (c.2 = nm))).isSome →
      Codec.decodeSig (Codec.encode L values) s = SigVal.choice nm) := by
  have hdec : Codec.decodeRaw (Codec.encode L values) s =
      Codec.rawOfValue s (values s.name) :=
    Codec.decodeRaw_encode L values hL hs hlen hfit
  constructor
  · intro v hv hch hscale
    refine ⟨(Codec.rawOfValue s (values s.name) : ℚ) * s.scale + s.offset,
      ?_, ?_⟩
    · unfold Codec.decodeSig
      rw [hdec, hch]
      rfl
    · rw [hv]
      show |(bankersRound ((v - s.offset) / s.scale) : ℚ) * s.scale + s.offset
          - v| ≤ s.scale
      set x := (v - s.offset) / s.scale with hx
      have hb := abs_bankersRound_sub_le x
      have hxs : x * s.scale = v - s.offset :=
        div_mul_cancel₀ _ (ne_of_gt hscale)
      have hrw : (bankersRound x : ℚ) * s.scale + s.offset - v =
          ((bankersRound x : ℚ) - x) * s.scale := by
        rw [sub_mul, hxs]
        ring
      calc |(bankersRound x : ℚ) * s.scale + s.offset - v|
          = |(bankersRound x : ℚ) - x| * |s.scale| := by rw [hrw, abs_mul]
        _ ≤ (1/2) * s.scale := by
            rw [abs_of_pos hscale]
            exact mul_le_mul_of_nonneg_right hb (le_of_lt hscale)
        _ ≤ s.scale := by linarith
  · intro nm hv hnd hsome
    obtain ⟨⟨r0, nm0⟩, hfind⟩ := Option.isSome_iff_exists.mp hsome
    have hnm0 : nm0 = nm := by
      have := List.find?_some hfind
      simpa using this
    subst hnm0
    have hmem : (r0, nm0) ∈ s.choices := List.mem_of_find?_eq_some hfind
    have hraw : Codec.rawOfValue s (values s.name) = r0 := by
      rw [hv]
      show ((s.choices.find? (fun c => decide (c.2 = nm0))).map Prod.fst).getD 0
          = r0
      rw [hfind]
      rfl
    unfold Codec.decodeSig
    rw [hdec, hraw, Codec.find?_key_of_nodup hnd hmem]

/-- Witness for C2: the spec section 8 scenario (RPM 4000, scale 1/4)
together with an ON/OFF enumeration signal in one 8-byte message. -/
theorem encode_decode_roundtrip_witness_C2 :
    Codec.LayoutSane engineLayout ∧
    (∃ w : ℚ, Codec.decodeSig (Codec.encode engineLayout engineValues) rpmSig =
        SigVal.num w ∧ |w - 4000| ≤ rpmSig.scale) ∧
    Codec.decodeSig (Codec.encode engineLayout engineValues) modeSig =
      SigVal.choice "ON" := by
  have hL : Codec.LayoutSane engineLayout := by decide
  refine ⟨hL, ?_, ?_⟩
  · exact (encode_decode_roundtrip_C2 engineLayout engineValues hL rpmSig
      (by decide) (by decide) (by decide)).1 4000 (by decide) rfl (by decide)
  · exact (encode_decode_roundtrip_C2 engineLayout engineValues hL modeSig
      (by decide) (by decide) (by decide)).2 "ON" (by decide) (by decide)
      (by decide)

/-- Claim C8: loading a catalog partitions its messages into the
outgoing and incoming lists: a message is outgoing iff the VCU role is
among its senders and the effective listen mode is off (for the Logging
interface no listen-mode key exists and it behaves as off); all other
messages — and, with listen mode on, all messages — are incoming, in
catalog order. -/
theorem setupMessages_partition_C8 (o : ConfigOption) (msgs : List CatMsg) :
    (TabManager.setupMessages o msgs).1 =
      (msgs.filter (TabManager.isTxMsg o)).map TabManager.buildDbcMessage ∧
    (TabManager.setupMessages o msgs).2 =
      (msgs.filter (fun m => ! TabManager.isTxMsg o m)).map
        TabManager.buildDbcMessage ∧
    (∀ m, TabManager.isTxMsg o m =
      (TabManager.hasVCU m.senders && ! TabManager.effListen o)) ∧
    (TabManager.effListen o = true →
      (TabManager.setupMessages o msgs).1 = []) := by
  have hiff : ∀ m, TabManager.isTxMsg o m =
      (TabManager.hasVCU m.senders && ! TabManager.effListen o) := by
    intro m
    unfold TabManager.isTxMsg TabManager.effListen
    by_cases ho : o.interface = "Logging"
    · simp [ho]
    · simp [ho]
  have hmain : ∀ ms : List CatMsg,
      (TabManager.setupMessages o ms).1 =
        (ms.filter (TabManager.isTxMsg o)).map TabManager.buildDbcMessage ∧
      (TabManager.setupMessages o ms).2 =
        (ms.filter (fun m => ! TabManager.isTxMsg o m)).map
          TabManager.buildDbcMessage := by
    intro ms
    induction ms with
    | nil => exact ⟨rfl, rfl⟩
    | cons m rest ih =>
        by_cases hm : TabManager.isTxMsg o m = true
        · constructor <;>
            simp [TabManager.setupMessages, hm, List.filter_cons, ih.1, ih.2]
        · have hm2 : TabManager.isTxMsg o m = false := by
            revert hm
            cases TabManager.isTxMsg o m <;> simp
          constructor <;>
            simp [TabManager.setupMessages, hm2, List.filter_cons, ih.1, ih.2]
  refine ⟨(hmain msgs).1, (hmain msgs).2, hiff, ?_⟩
  intro hl
  rw [(hmain msgs).1]
  have hnil : msgs.filter (TabManager.isTxMsg o) = [] := by
    rw [List.filter_eq_nil_iff]
    intro m _
    rw [hiff m, hl]
    simp
  rw [hnil]
  rfl

/-- Witness for C8: with listen mode on every message is incoming; with
listen mode off the VCU-sent message is the only outgoing one. -/
theorem setupMessages_partition_witness_C8 :
    TabManager.effListen optListen = true ∧
    (TabManager.setupMessages optListen [catMsgVcu, catMsgMotor]).1 = [] ∧
    TabManager.isTxMsg optNormal catMsgVcu = true ∧
    (TabManager.setupMessages optNormal [catMsgVcu, catMsgMotor]).1 =
      [catMsgVcu].map TabManager.buildDbcMessage := by
  refine ⟨by decide, ?_, by decide, ?_⟩
  · exact (setupMessages_partition_C8 optListen [catMsgVcu, catMsgMotor]).2.2.2
      (by decide)
  · rw [(setupMessages_partition_C8 optNormal [catMsgVcu, catMsgMotor]).1]
    rfl

end CanTestbench
